import Mathlib

/-!
Verification of the ouija-board HTTP service core (Go sources: `ollama.go`,
`storage.go`, `handlers.go`, `middleware.go`) against its natural-language
specification.  Text is modelled as `List Char` (Go strings over their
character sequences), machine integers as `Nat`, and fallible operations as
`Except`/`Option`.  The external inference endpoint and the HTTP transport are
modelled as explicit inputs to the embedded functions.
-/

set_option maxRecDepth 10000

namespace Ouija

/-! ## Text primitives (Go `strings` / `unicode` as used by the sources) -/

/-- Go `unicode.IsSpace` restricted to its Latin-1 fast path
(tab, newline, vertical tab, form feed, carriage return, space, NEL, NBSP);
the wider Unicode White_Space table is not reproduced, no claim depends on it. -/
def isSpace (c : Char) : Bool :=
  c = ' ' || c = '\x09' || c = '\x0a' || c = '\x0b' || c = '\x0c' ||
  c = '\x0d' || c = '\x85' || c = '\xa0'

/-- Go `strings.TrimSpace`: drop leading and trailing whitespace. -/
def trimSpace (s : List Char) : List Char :=
  ((s.dropWhile isSpace).reverse.dropWhile isSpace).reverse

/-! ## Bounded history store (`storage.go`) -/

/-- Source `storage.go` `QAPair`: a question and answer pair. -/
structure QAPair where
  question : List Char
  answer : List Char
deriving DecidableEq, Repr

/-- Source `storage.go` `MemoryStorage`: in-memory storage state (the mutex guards
concurrency, which the sequential embedding factors out). -/
structure MemoryStorage where
  maxSize : Nat
  pairs : List QAPair
deriving DecidableEq, Repr

/-- Source `storage.go` `NewMemoryStorage`. -/
def NewMemoryStorage (maxSize : Nat) : MemoryStorage :=
  { maxSize := maxSize, pairs := [] }

/-- Source `storage.go` `Add`: append the pair, then enforce the maximum size by
dropping the oldest entries (`s.pairs = s.pairs[len(s.pairs)-s.maxSize:]`);
always returns a nil error. -/
def MemoryStorage.Add (s : MemoryStorage) (pair : QAPair) : MemoryStorage × Option (List Char) :=
  let ps := s.pairs ++ [pair]
  let ps' := if ps.length > s.maxSize then ps.drop (ps.length - s.maxSize) else ps
  ({ s with pairs := ps' }, none)

/-- Source `storage.go` `GetAll`: returns (a copy of) all pairs and a nil error.
The aliasing aspect of the copy is modelled separately in `HeapModel`. -/
def MemoryStorage.GetAll (s : MemoryStorage) : List QAPair × Option (List Char) :=
  (s.pairs, none)

/-- Folding a sequence of `Add` calls over a storage state. -/
def addAll (s : MemoryStorage) (qs : List QAPair) : MemoryStorage :=
  qs.foldl (fun s p => (s.Add p).1) s

/-! ## Request validation (`handlers.go` `askHandler`, lines 66-76) -/

inductive ValidationResult where
  | ok
  | err (msg : List Char)
deriving DecidableEq, Repr

/-- The validation performed by `askHandler` on the decoded question, in
source order: raw length over 1000 is rejected first, then emptiness after
trimming. -/
def validateQuestion (q : List Char) : ValidationResult :=
  if q.length > 1000 then .err ("Question too long (max 1000 characters)".data)
  else if trimSpace q = [] then .err ("Question cannot be empty".data)
  else .ok

/-! ## Client identity (`middleware.go` `rateLimitMiddleware`, lines 472-477) -/

/-- Go `http.Header.Get`: the empty string when the header is absent. -/
def headerGet (h : Option (List Char)) : List Char :=
  h.getD []

/-- Source `middleware.go`: `ip := r.RemoteAddr; if forwarded := r.Header.Get("X-Forwarded-For");
forwarded != "" { ip = forwarded }`. -/
def clientIdentity (xForwardedFor : Option (List Char)) (remoteAddr : List Char) : List Char :=
  let ip := remoteAddr
  let forwarded := headerGet xForwardedFor
  if forwarded ≠ [] then forwarded else ip

/-- Spec wording for the identity: the string taken from the forwarded-for
header when that header is present and non-empty, otherwise the
transport-level peer address. -/
def clientIdentitySpec (xForwardedFor : Option (List Char)) (remoteAddr : List Char) : List Char :=
  match xForwardedFor with
  | some s => if s ≠ [] then s else remoteAddr
  | none => remoteAddr

/-! ## Inference client (`ollama.go` `GenerateAnswer`) -/

/-- Source `ollama.go` `sanitizeInput`: trim whitespace, then remove null bytes. -/
def sanitizeInput (input : List Char) : List Char :=
  (trimSpace input).filter (fun c => c ≠ '\x00')

/-- Source `ollama.go`: the fixed persona template prepended to the sanitized
question (the `fmt.Sprintf` call). -/
def mysticalPrompt (q : List Char) : List Char :=
  ("Pretend that you are a Ouija board. As a mystical Ouija board, answer the following question in a short answer. Respond without using any actions, such as *smiles*, *laughs*, or any text within asterisks. If the question is a yes or no question, answer with a yes or a no. If the user says goodbye, bye, or farewell, respond with \x27Goodbye.\x27 Question: ").data ++ q

/-- Source `ollama.go` `OllamaResponse`: one decoded line of the streaming body. -/
structure OllamaResponse where
  response : List Char
  done : Bool
deriving DecidableEq, Repr

/-- One raw line of the streaming body, abstracted to its decode outcome:
an empty line (skipped by the `len(line) == 0` check), a line on which
`json.Unmarshal` fails (skipped), or a decoded fragment. -/
inductive Line where
  | empty
  | malformed
  | frag (r : OllamaResponse)
deriving DecidableEq, Repr

/-- The observable behaviour of the upstream inference call: either
`c.client.Do` fails (connection failure / timeout), or a response arrives
with a status code and a body.  The body is the list of lines the scanner
delivers before stopping, and `scanErr` records whether the scanner stopped
because of a read error (`true`) rather than clean end-of-stream (`false`). -/
inductive Upstream where
  | connErr
  | resp (status : Nat) (lines : List Line) (scanErr : Bool)
deriving DecidableEq, Repr

/-- The `for scanner.Scan()` loop of `GenerateAnswer`: skip empty and
malformed lines, accumulate `ollamaResp.Response`, break on `Done`.
Returns the accumulated answer and whether the loop broke on a done
fragment (if it did, later lines are never scanned, so a pending read
error is never observed by `scanner.Err()`). -/
def scanLoop : List Line → List Char × Bool
  | [] => ([], false)
  | .empty :: rest => scanLoop rest
  | .malformed :: rest => scanLoop rest
  | .frag r :: rest =>
      if r.done then (r.response, true)
      else ((r.response ++ (scanLoop rest).1), (scanLoop rest).2)

/-- The fixed fallback sentence of `ollama.go`. -/
def fallbackMsg : List Char :=
  ("The spirits cannot answer at this time. Try again later.").data

/-- Source `ollama.go` `GenerateAnswer`, with the behaviour of the upstream call as an
explicit input.  `json.Marshal` and `http.NewRequestWithContext` cannot fail
on this fixed payload shape, so those two error returns have no
corresponding input. -/
def GenerateAnswer (question : List Char) (up : Upstream) :
    Except (List Char) (List Char) :=
  if question.length > 1000 then .error ("question too long".data)
  else
    let _prompt := mysticalPrompt (sanitizeInput question)
    match up with
    | .connErr => .ok fallbackMsg
    | .resp status lines scanErr =>
        if status ≠ 200 then .ok fallbackMsg
        else
          let (answer, sawDone) := scanLoop lines
          if !sawDone && scanErr then .ok fallbackMsg
          else
            let result := trimSpace answer
            if result = [] then .ok fallbackMsg
            else .ok result

/-- Spec wording: the fragments of the stream that parse successfully. -/
def parsedFragments (lines : List Line) : List OllamaResponse :=
  lines.filterMap (fun l => match l with | .frag r => some r | _ => none)

/-- Spec wording: the fragments up to and including the first one whose
completion flag is set. -/
def untilDone : List OllamaResponse → List OllamaResponse
  | [] => []
  | r :: rest => if r.done then [r] else r :: untilDone rest

/-- Spec wording for the aggregation: the concatenation, in arrival order,
of the text pieces of the successfully parsed fragments, up to and
including the first fragment whose completion flag is set (or the end of
the stream). -/
def specAggregate (lines : List Line) : List Char :=
  ((untilDone (parsedFragments lines)).map (fun r => r.response)).flatten

/-! ## Request handler (`handlers.go` `askHandler`) and admission
(`middleware.go` `rateLimitMiddleware`) -/

/-- A wire response body: `{"answer": ...}` or `{"error": ...}`. -/
inductive Body where
  | answer (a : List Char)
  | error (msg : List Char)
deriving DecidableEq, Repr

/-- Source `handlers.go` `askHandler`: content-type check, JSON decode, length and
emptiness validation, answer generation, best-effort storage, response.
`ctJSON` models `strings.Contains(r.Header.Get("Content-Type"),
"application/json")`; `decoded` is the result of the strict JSON decode
(`none` on a decode error).  Returns the wire response and the storage
state after the request. -/
def askHandler (storage : MemoryStorage) (ctJSON : Bool)
    (decoded : Option (List Char)) (up : Upstream) :
    (Nat × Body) × MemoryStorage :=
  if !ctJSON then
    ((400, .error ("Content-Type must be application/json".data)), storage)
  else
    match decoded with
    | none => ((400, .error ("Invalid request format".data)), storage)
    | some q =>
        if q.length > 1000 then
          ((400, .error ("Question too long (max 1000 characters)".data)), storage)
        else if trimSpace q = [] then
          ((400, .error ("Question cannot be empty".data)), storage)
        else
          match GenerateAnswer q up with
          | .error _ => ((500, .error ("Failed to generate answer".data)), storage)
          | .ok answer =>
              let (storage', _) := storage.Add { question := q, answer := answer }
              ((200, .answer answer), storage')

/-- The `/ask` endpoint as wrapped by `rateLimitMiddleware`: a request
rejected by admission control is answered with 429 before the handler
runs. -/
def askEndpoint (allowed : Bool) (storage : MemoryStorage) (ctJSON : Bool)
    (decoded : Option (List Char)) (up : Upstream) :
    (Nat × Body) × MemoryStorage :=
  if !allowed then ((429, .error ("Rate limit exceeded".data)), storage)
  else askHandler storage ctJSON decoded up

/-! ## Admission control (`middleware.go` `getLimiter` over
`golang.org/x/time/rate`) -/

/-- A token bucket in the style of `golang.org/x/time/rate.Limiter`:
`limit` tokens per second refill, capacity `burst`, current `tokens`,
and the time of the last update.  Time is modelled as `ℚ` seconds. -/
structure Limiter where
  limit : ℚ
  burst : Nat
  tokens : ℚ
  last : ℚ
deriving DecidableEq, Repr

/-- Library call `rate.NewLimiter(limit, burst)` observed at its first use: the zero
`last` time makes the first refill fill the bucket, so a fresh limiter
behaves as a full bucket. -/
def newLimiter (limit : ℚ) (burst : Nat) (now : ℚ) : Limiter :=
  { limit := limit, burst := burst, tokens := burst, last := now }

/-- Library call `rate.Limiter.Allow` at time `now`: refill by the elapsed time capped
at the burst, then withdraw one token if available. -/
def Limiter.allowAt (l : Limiter) (now : ℚ) : Bool × Limiter :=
  let elapsed := max 0 (now - l.last)
  let tokens := min (l.burst : ℚ) (l.tokens + l.limit * elapsed)
  if 1 ≤ tokens then (true, { l with tokens := tokens - 1, last := now })
  else (false, { l with tokens := tokens, last := now })

/-- Source `middleware.go` `getLimiter` on first sight of an identity:
`rate.NewLimiter(rate.Limit(rl.rate), rl.rate*2)`, i.e. refill rate
`rate` tokens/second and burst `2 × rate`. -/
def getLimiterFresh (rate : Nat) (now : ℚ) : Limiter :=
  newLimiter (rate : ℚ) (rate * 2) now

/-- The results of `k` successive `Allow` calls, all at the same time `t`
(rapid succession, no refill elapsed). -/
def rapidAllows : Limiter → ℚ → Nat → List Bool
  | _, _, 0 => []
  | l, t, k + 1 => (l.allowAt t).1 :: rapidAllows (l.allowAt t).2 t k

/-- The limiter state after `k` successive `Allow` calls at time `t`. -/
def rapidState : Limiter → ℚ → Nat → Limiter
  | l, _, 0 => l
  | l, t, k + 1 => rapidState (l.allowAt t).2 t k

/-! ## Heap model of the copy made by `GetAll` (`storage.go`, lines 51-59) -/

namespace HeapModel

/-- A heap of pair-sequence cells: Go slice backing stores, one location per
allocation.  `next` is the next fresh location. -/
structure Heap where
  mem : Nat → List Ouija.QAPair
  next : Nat

/-- A `MemoryStorage` whose `pairs` slice lives at heap location `loc`. -/
structure StoreRef where
  maxSize : Nat
  loc : Nat

/-- Source `storage.go` `GetAll` at the heap level: `result := make([]QAPair, len);
copy(result, s.pairs); return result` — allocate a fresh cell, copy the
contents of the cell of the store into it, and return the fresh location. -/
def getAll (h : Heap) (s : StoreRef) : Heap × Nat :=
  ({ mem := Function.update h.mem h.next (h.mem s.loc), next := h.next + 1 },
   h.next)

/-- Source `storage.go` `Add` at the heap level: mutate the cell of the store in place
(append, then trim to `maxSize`). -/
def add (h : Heap) (s : StoreRef) (p : Ouija.QAPair) : Heap :=
  let ps := h.mem s.loc ++ [p]
  let ps' := if ps.length > s.maxSize then ps.drop (ps.length - s.maxSize) else ps
  { mem := Function.update h.mem s.loc ps', next := h.next }

/-- A sequence of `Add` calls on the store, at the heap level. -/
def addList (h : Heap) (s : StoreRef) : List Ouija.QAPair → Heap
  | [] => h
  | p :: ps => addList (add h s p) s ps

end HeapModel

/-! ## Lemmas about the bounded history store -/

theorem rtake_append_rtake {α : Type} (c : Nat) (l r : List α) :
    (List.rtake l c ++ r).rtake c = (l ++ r).rtake c := by
  simp only [List.rtake_eq_reverse_take_reverse, List.reverse_append, List.reverse_reverse,
    List.take_append_eq_append_take, List.take_take, List.length_reverse]
  rw [min_eq_left (Nat.sub_le c r.length)]

theorem Add_fst_pairs (s : MemoryStorage) (p : QAPair) :
    ((s.Add p).1).pairs = (s.pairs ++ [p]).rtake s.maxSize := by
  dsimp only [MemoryStorage.Add, List.rtake]
  split
  · rfl
  · next h => rw [Nat.sub_eq_zero_of_le (by omega), List.drop_zero]

theorem Add_fst_maxSize (s : MemoryStorage) (p : QAPair) :
    ((s.Add p).1).maxSize = s.maxSize := rfl

theorem length_rtake {α : Type} (c : Nat) (l : List α) :
    (List.rtake l c).length = min c l.length := by
  simp only [List.rtake, List.length_drop]
  omega

theorem addAll_pairs (qs : List QAPair) (s : MemoryStorage)
    (h : s.pairs.length ≤ s.maxSize) :
    (addAll s qs).pairs = (s.pairs ++ qs).rtake s.maxSize := by
  induction qs generalizing s with
  | nil =>
      simp only [addAll, List.foldl_nil, List.append_nil, List.rtake,
        Nat.sub_eq_zero_of_le h, List.drop_zero]
  | cons p qs ih =>
      have hstep : addAll s (p :: qs) = addAll ((s.Add p).1) qs := rfl
      have hlen : ((s.Add p).1).pairs.length ≤ ((s.Add p).1).maxSize := by
        rw [Add_fst_pairs, Add_fst_maxSize, length_rtake]
        omega
      rw [hstep, ih _ hlen, Add_fst_pairs, Add_fst_maxSize, rtake_append_rtake]
      simp

/-- C2: after any sequence of `Add` calls starting from a fresh store, the
log length never exceeds `MaxHistorySize`, and once more than `capacity`
items have been appended, `GetAll` returns exactly the last `capacity`
items in their original relative order. -/
theorem history_bounded_and_keeps_most_recent (c : Nat) (qs : List QAPair) :
    (addAll (NewMemoryStorage c) qs).pairs.length ≤ c ∧
    (c < qs.length →
      ((addAll (NewMemoryStorage c) qs).GetAll).1 = qs.drop (qs.length - c)) := by
  have h : (addAll (NewMemoryStorage c) qs).pairs = qs.rtake c := by
    have := addAll_pairs qs (NewMemoryStorage c) (by simp [NewMemoryStorage])
    simpa [NewMemoryStorage] using this
  refine ⟨?_, fun _ => ?_⟩
  · rw [h, length_rtake]
    omega
  · rw [MemoryStorage.GetAll, h, List.rtake]

theorem history_bounded_and_keeps_most_recent_witness :
    (addAll (NewMemoryStorage 2)
      [⟨"a".data, [] ⟩, ⟨"b".data, [] ⟩, ⟨"c".data, [] ⟩]).pairs.length ≤ 2 ∧
    ((addAll (NewMemoryStorage 2)
      [⟨"a".data, [] ⟩, ⟨"b".data, [] ⟩, ⟨"c".data, [] ⟩]).GetAll).1 =
      [⟨"b".data, [] ⟩, ⟨"c".data, [] ⟩] := by
  have h := history_bounded_and_keeps_most_recent 2
    [⟨"a".data, [] ⟩, ⟨"b".data, [] ⟩, ⟨"c".data, [] ⟩]
  exact ⟨h.1, by rw [h.2 (by decide)]; decide⟩

/-- C10: `MemoryStorage.Add` always returns a nil error, for every prior
state and every pair, so the storage-failure branch of the handler can never run
with this implementation. -/
theorem add_never_fails (s : MemoryStorage) (p : QAPair) :
    (s.Add p).2 = none := rfl

/-- C3 counterexample: a question of 1001 spaces followed by one letter has
trimmed length 1 (inside (0, 1000]) yet validation rejects it, because the
code checks the raw, untrimmed length against 1000. -/
theorem validate_trimmed_length_counterexample :
    0 < (trimSpace (List.replicate 1001 ' ' ++ ['a'])).length ∧
    (trimSpace (List.replicate 1001 ' ' ++ ['a'])).length ≤ 1000 ∧
    validateQuestion (List.replicate 1001 ' ' ++ ['a']) ≠ .ok := by
  decide

/-- C3 (amended): validation accepts exactly the questions whose raw
(untrimmed) length is at most 1000 and whose trimmed form is non-empty;
a raw length over 1000 is rejected with the too-long message, and an
otherwise whitespace-only or empty question with the cannot-be-empty
message. -/
theorem validate_characterization (q : List Char) :
    (q.length ≤ 1000 → 0 < (trimSpace q).length → validateQuestion q = .ok) ∧
    (1000 < q.length →
      validateQuestion q = .err ("Question too long (max 1000 characters)".data)) ∧
    (q.length ≤ 1000 → (trimSpace q).length = 0 →
      validateQuestion q = .err ("Question cannot be empty".data)) := by
  refine ⟨fun hle hpos => ?_, fun hgt => ?_, fun hle hz => ?_⟩
  · have hne : trimSpace q ≠ [] := by
      intro h
      rw [h] at hpos
      exact absurd hpos (by simp)
    simp [validateQuestion, Nat.not_lt.mpr hle, hne]
  · simp [validateQuestion, hgt]
  · have he : trimSpace q = [] := List.length_eq_zero.mp hz
    simp [validateQuestion, Nat.not_lt.mpr hle, he]

theorem validate_characterization_witness :
    validateQuestion ("hi".data) = .ok ∧
    validateQuestion (List.replicate 1001 'a') =
      .err ("Question too long (max 1000 characters)".data) ∧
    validateQuestion [' '] = .err ("Question cannot be empty".data) :=
  ⟨(validate_characterization ("hi".data)).1 (by decide) (by decide),
   (validate_characterization (List.replicate 1001 'a')).2.1 (by decide),
   (validate_characterization [' ']).2.2 (by decide) (by decide)⟩

/-- C7: the identity keying the rate-limit state is the forwarded-for
header value when that header is present and non-empty, and otherwise the
transport-level peer address. -/
theorem client_identity_forwarded (h : Option (List Char)) (remote : List Char) :
    clientIdentity h remote = clientIdentitySpec h remote := by
  cases h with
  | none => simp [clientIdentity, clientIdentitySpec, headerGet]
  | some s =>
      by_cases hs : s = []
      · simp [clientIdentity, clientIdentitySpec, headerGet, hs]
      · simp [clientIdentity, clientIdentitySpec, headerGet, hs]

/-- C1: for every question that reaches the inference call, every upstream
failure — connection failure, non-200 status, a scanner read error observed
after the loop (stream exhausted without a done fragment), or an aggregate
that is empty after trimming — makes `GenerateAnswer` return the fixed
fallback sentence with a nil error, never a raw error. -/
theorem generate_fallback_on_upstream_failure (q : List Char) (up : Upstream)
    (hq : q.length ≤ 1000)
    (h : up = .connErr ∨ ∃ status lines scanErr, up = .resp status lines scanErr ∧
      (status ≠ 200 ∨ ((scanLoop lines).2 = false ∧ scanErr = true) ∨
        trimSpace (scanLoop lines).1 = [])) :
    GenerateAnswer q up = .ok fallbackMsg := by
  have hq' : ¬ q.length > 1000 := Nat.not_lt.mpr hq
  rcases h with rfl | ⟨status, lines, scanErr, rfl, hfail⟩
  · simp [GenerateAnswer, hq']
  · rcases hsl : scanLoop lines with ⟨ans, sd⟩
    by_cases h200 : status = 200
    · subst h200
      rcases hfail with hst | ⟨hdone, herr⟩ | hempty
      · exact absurd rfl hst
      · rw [hsl] at hdone
        subst herr
        simp only at hdone
        subst hdone
        simp [GenerateAnswer, hq', hsl]
      · rw [hsl] at hempty
        by_cases hse : (!sd && scanErr) = true
        · simp [GenerateAnswer, hq', hsl, hse]
        · simp only [Bool.not_eq_true] at hse
          simp [GenerateAnswer, hq', hsl, hse, hempty]
    · simp [GenerateAnswer, hq', h200]

theorem generate_fallback_on_upstream_failure_witness :
    GenerateAnswer ("hi".data) Upstream.connErr = .ok fallbackMsg :=
  generate_fallback_on_upstream_failure ("hi".data) Upstream.connErr
    (by decide) (Or.inl rfl)

theorem scanLoop_fst_eq_specAggregate (lines : List Line) :
    (scanLoop lines).1 = specAggregate lines := by
  induction lines with
  | nil => rfl
  | cons l rest ih =>
      cases l with
      | empty =>
          simpa [scanLoop, specAggregate, parsedFragments, untilDone] using ih
      | malformed =>
          simpa [scanLoop, specAggregate, parsedFragments, untilDone] using ih
      | frag r =>
          by_cases hd : r.done
          · simp [scanLoop, specAggregate, parsedFragments, untilDone, hd]
          · simp only [Bool.not_eq_true] at hd
            simp [scanLoop, specAggregate, parsedFragments, untilDone, hd, ih]

/-- C5 counterexample: on a stream whose single fragment carries
`" Yes. "` with the done flag set, no fallback condition triggers, yet
`GenerateAnswer` does not return the exact concatenation of the parsed
fragments — it returns the whitespace-trimmed form `"Yes."`. -/
theorem generate_exact_concatenation_counterexample :
    trimSpace (specAggregate [.frag ⟨" Yes. ".data, true⟩]) ≠ [] ∧
    GenerateAnswer ("hi".data) (.resp 200 [.frag ⟨" Yes. ".data, true⟩] false) =
      .ok ("Yes.".data) ∧
    specAggregate [.frag ⟨" Yes. ".data, true⟩] = (" Yes. ".data) ∧
    ("Yes.".data : List Char) ≠ (" Yes. ".data) :=
  ⟨by decide, rfl, by decide, by decide⟩

/-- C5 (amended): when no fallback condition triggers, `GenerateAnswer`
returns the whitespace-trimmed concatenation, in arrival order, of the text
pieces of the fragments that parse successfully, up to and including the
first fragment whose completion flag is set (or the end of the stream);
fragments that fail to parse are skipped without aborting aggregation. -/
theorem generate_returns_trimmed_aggregate (q : List Char) (hq : q.length ≤ 1000)
    (lines : List Line) (scanErr : Bool)
    (hscan : (scanLoop lines).2 = true ∨ scanErr = false)
    (hne : trimSpace (specAggregate lines) ≠ []) :
    GenerateAnswer q (.resp 200 lines scanErr) =
      .ok (trimSpace (specAggregate lines)) := by
  have hq' : ¬ q.length > 1000 := Nat.not_lt.mpr hq
  rcases hsl : scanLoop lines with ⟨ans, sd⟩
  have hans : ans = specAggregate lines := by
    have h := scanLoop_fst_eq_specAggregate lines
    rw [hsl] at h
    exact h
  have hse : (!sd && scanErr) = false := by
    rcases hscan with h | h
    · rw [hsl] at h
      simp only at h
      simp [h]
    · simp [h]
  subst hans
  simp [GenerateAnswer, hq', hsl, hse, hne]

theorem generate_returns_trimmed_aggregate_witness :
    GenerateAnswer ("hi".data)
      (.resp 200 [.malformed, .frag ⟨"Ye".data, false⟩, .frag ⟨"s.".data, true⟩]
        false) =
      .ok (trimSpace (specAggregate
        [.malformed, .frag ⟨"Ye".data, false⟩, .frag ⟨"s.".data, true⟩])) :=
  generate_returns_trimmed_aggregate ("hi".data) (by decide)
    [.malformed, .frag ⟨"Ye".data, false⟩, .frag ⟨"s.".data, true⟩] false
    (Or.inr rfl) (by decide)

theorem generate_ok_of_short (q : List Char) (hq : ¬ q.length > 1000)
    (up : Upstream) : ∃ a, GenerateAnswer q up = .ok a := by
  cases up with
  | connErr => exact ⟨fallbackMsg, by simp [GenerateAnswer, hq]⟩
  | resp status lines scanErr =>
      rcases hsl : scanLoop lines with ⟨ans, sd⟩
      simp only [GenerateAnswer, if_neg hq, hsl]
      split_ifs <;> exact ⟨_, rfl⟩

/-- C9: for a question that the validation in the handler accepts (so of length
at most 1000), the defensive length check in `GenerateAnswer` can never
fire: the call never returns the "question too long" error, whatever the
upstream does, so a validated request cannot reach the 500 response
through that branch. -/
theorem validated_question_never_too_long (q : List Char)
    (h : validateQuestion q = .ok) (up : Upstream) :
    GenerateAnswer q up ≠ .error ("question too long".data) := by
  have hle : ¬ q.length > 1000 := by
    intro hgt
    simp [validateQuestion, hgt] at h
  rcases generate_ok_of_short q hle up with ⟨a, ha⟩
  rw [ha]
  simp

theorem validated_question_never_too_long_witness :
    GenerateAnswer ("hi".data) Upstream.connErr ≠
      .error ("question too long".data) :=
  validated_question_never_too_long ("hi".data) (by decide) Upstream.connErr

/-- C6: a request rejected by validation (400) or by admission control
(429) leaves the history store unchanged; in particular a JSON `POST /ask`
with an empty question is answered with 400 and the cannot-be-empty error
body while the store is untouched. -/
theorem rejected_request_no_side_effects (allowed : Bool) (s : MemoryStorage)
    (ct : Bool) (dec : Option (List Char)) (up : Upstream) :
    (((askEndpoint allowed s ct dec up).1.1 = 400 ∨
      (askEndpoint allowed s ct dec up).1.1 = 429) →
      (askEndpoint allowed s ct dec up).2 = s) ∧
    askEndpoint true s true (some []) up =
      ((400, .error ("Question cannot be empty".data)), s) := by
  constructor
  · intro h
    cases allowed with
    | false => simp [askEndpoint]
    | true =>
        cases ct with
        | false => simp [askEndpoint, askHandler]
        | true =>
            cases dec with
            | none => simp [askEndpoint, askHandler]
            | some q =>
                by_cases hlen : q.length > 1000
                · simp [askEndpoint, askHandler, hlen]
                · by_cases htrim : trimSpace q = []
                  · simp [askEndpoint, askHandler, hlen, htrim]
                  · exfalso
                    rcases hg : GenerateAnswer q up with e | a
                    · simp [askEndpoint, askHandler, hlen, htrim, hg] at h
                    · simp [askEndpoint, askHandler, MemoryStorage.Add,
                        hlen, htrim, hg] at h
  · simp [askEndpoint, askHandler, trimSpace]

theorem rejected_request_no_side_effects_witness :
    (askEndpoint false (NewMemoryStorage 5) true (some ("hi".data))
      Upstream.connErr).2 = NewMemoryStorage 5 ∧
    askEndpoint true (NewMemoryStorage 5) true (some []) Upstream.connErr =
      ((400, .error ("Question cannot be empty".data)), NewMemoryStorage 5) :=
  ⟨(rejected_request_no_side_effects false (NewMemoryStorage 5) true
      (some ("hi".data)) Upstream.connErr).1 (Or.inr (by decide)),
   (rejected_request_no_side_effects true (NewMemoryStorage 5) true
      (some []) Upstream.connErr).2⟩

theorem addList_mem_ne (ps : List QAPair) (h : HeapModel.Heap)
    (s : HeapModel.StoreRef) (loc : Nat) (hne : loc ≠ s.loc) :
    (HeapModel.addList h s ps).mem loc = h.mem loc := by
  induction ps generalizing h with
  | nil => rfl
  | cons p ps ih =>
      rw [HeapModel.addList, ih]
      simp [HeapModel.add, Function.update_noteq hne]

/-- C8: `GetAll` returns an independent copy, not a live view: the fresh
cell it returns holds the contents of the log at the time of the call, and
reading it after any later sequence of `Add` calls on the store still
yields that same value. -/
theorem getAll_returns_independent_copy (h : HeapModel.Heap)
    (s : HeapModel.StoreRef) (hvalid : s.loc < h.next) (ps : List QAPair) :
    ((HeapModel.getAll h s).1).mem (HeapModel.getAll h s).2 = h.mem s.loc ∧
    (HeapModel.addList (HeapModel.getAll h s).1 s ps).mem
      (HeapModel.getAll h s).2 = h.mem s.loc := by
  have hne : h.next ≠ s.loc := (Nat.ne_of_lt hvalid).symm
  constructor
  · simp [HeapModel.getAll]
  · rw [show (HeapModel.getAll h s).2 = h.next from rfl,
      addList_mem_ne ps _ s h.next hne]
    simp [HeapModel.getAll]

theorem getAll_returns_independent_copy_witness :
    ((HeapModel.getAll ⟨fun _ => [], 1⟩ ⟨3, 0⟩).1).mem
      (HeapModel.getAll ⟨fun _ => [], 1⟩ ⟨3, 0⟩).2 = [] ∧
    (HeapModel.addList (HeapModel.getAll ⟨fun _ => [], 1⟩ ⟨3, 0⟩).1 ⟨3, 0⟩
      [⟨"q".data, "a".data⟩]).mem
      (HeapModel.getAll ⟨fun _ => [], 1⟩ ⟨3, 0⟩).2 = [] :=
  getAll_returns_independent_copy ⟨fun _ => [], 1⟩ ⟨3, 0⟩ (by decide)
    [⟨"q".data, "a".data⟩]

theorem allowAt_same_time (r : ℚ) (b m : Nat) (t : ℚ) (hm : m ≤ b) :
    Limiter.allowAt ⟨r, b, (m : ℚ), t⟩ t =
      if 1 ≤ m then (true, ⟨r, b, ((m - 1 : Nat) : ℚ), t⟩)
      else (false, ⟨r, b, (m : ℚ), t⟩) := by
  have hm' : ((m : ℚ)) ≤ ((b : Nat) : ℚ) := by exact_mod_cast hm
  simp only [Limiter.allowAt, sub_self, max_self, mul_zero, add_zero,
    min_eq_right hm']
  by_cases h1 : 1 ≤ m
  · rw [if_pos (by exact_mod_cast h1), if_pos h1]
    have hc : ((m : ℚ)) - 1 = ((m - 1 : Nat) : ℚ) := by
      rw [Nat.cast_sub h1, Nat.cast_one]
    rw [hc]
  · rw [if_neg (by exact_mod_cast h1), if_neg h1]

theorem rapid_general (r : ℚ) (b : Nat) (t : ℚ) :
    ∀ (k m : Nat), m ≤ b →
      rapidAllows ⟨r, b, (m : ℚ), t⟩ t k =
        List.replicate (min k m) true ++ List.replicate (k - m) false ∧
      rapidState ⟨r, b, (m : ℚ), t⟩ t k = ⟨r, b, ((m - min k m : Nat) : ℚ), t⟩ := by
  intro k
  induction k with
  | zero =>
      intro m hm
      simp [rapidAllows, rapidState]
  | succ k ih =>
      intro m hm
      rw [rapidAllows, rapidState, allowAt_same_time r b m t hm]
      by_cases h1 : 1 ≤ m
      · rw [if_pos h1]
        have ihm := ih (m - 1) (by omega)
        refine ⟨?_, ?_⟩
        · show true :: rapidAllows ⟨r, b, ((m - 1 : Nat) : ℚ), t⟩ t k = _
          rw [ihm.1, show min (k + 1) m = min k (m - 1) + 1 from by omega,
            show k + 1 - m = k - (m - 1) from by omega, List.replicate_succ,
            List.cons_append]
        · show rapidState ⟨r, b, ((m - 1 : Nat) : ℚ), t⟩ t k = _
          rw [ihm.2]
          have hmm : m - 1 - min k (m - 1) = m - min (k + 1) m := by omega
          rw [hmm]
      · rw [if_neg h1]
        have hm0 : m = 0 := by omega
        subst hm0
        have ihm := ih 0 (by omega)
        refine ⟨?_, ?_⟩
        · show false :: rapidAllows ⟨r, b, ((0 : Nat) : ℚ), t⟩ t k = _
          rw [ihm.1]
          simp [List.replicate_succ]
        · show rapidState ⟨r, b, ((0 : Nat) : ℚ), t⟩ t k = _
          rw [ihm.2]
          have h0 : (0 : Nat) - min k 0 = 0 - min (k + 1) 0 := by omega
          rw [h0]

/-- C4: on first sight of an identity the middleware creates a bucket with
capacity `2 × rate` and refill rate `rate` tokens/second, so with no refill
elapsed `Allow` succeeds exactly `2 × rate` times and then fails, and once
the bucket is exhausted a later call succeeds exactly when the elapsed
refill `rate × (t' - t)` has reached one token. -/
theorem fresh_limiter_burst (r k : Nat) (t : ℚ) (hr : 1 ≤ r) :
    rapidAllows (getLimiterFresh r t) t k =
      List.replicate (min k (r * 2)) true ++ List.replicate (k - r * 2) false ∧
    (r * 2 ≤ k → ∀ t' : ℚ, t ≤ t' →
      (((rapidState (getLimiterFresh r t) t k).allowAt t').1 = true ↔
        1 ≤ (r : ℚ) * (t' - t))) := by
  have hg := rapid_general (r : ℚ) (r * 2) t k (r * 2) (le_refl _)
  have hfresh : getLimiterFresh r t = ⟨(r : ℚ), r * 2, ((r * 2 : Nat) : ℚ), t⟩ := rfl
  refine ⟨by rw [hfresh, hg.1], fun hk t' ht' => ?_⟩
  rw [hfresh, hg.2]
  have hmin : r * 2 - min k (r * 2) = 0 := by omega
  rw [hmin]
  have helapsed : max (0 : ℚ) (t' - t) = t' - t :=
    max_eq_right (by linarith)
  have h2r : (1 : ℚ) ≤ ((r * 2 : Nat) : ℚ) := by
    have : (1 : Nat) ≤ r * 2 := by omega
    exact_mod_cast this
  simp only [Limiter.allowAt, helapsed, Nat.cast_zero, zero_add]
  constructor
  · intro h
    by_contra hlt
    rw [if_neg (by
      intro habs
      exact hlt (le_trans habs (min_le_right _ _)))] at h
    exact Bool.false_ne_true h
  · intro h
    rw [if_pos (le_min h2r h)]

theorem fresh_limiter_burst_witness :
    rapidAllows (getLimiterFresh 1 0) 0 3 =
      List.replicate (min 3 (1 * 2)) true ++ List.replicate (3 - 1 * 2) false ∧
    (((rapidState (getLimiterFresh 1 0) 0 3).allowAt 5).1 = true ↔
      1 ≤ ((1 : Nat) : ℚ) * (5 - 0)) :=
  ⟨(fresh_limiter_burst 1 3 0 (by decide)).1,
   (fresh_limiter_burst 1 3 0 (by decide)).2 (by decide) 5 (by norm_num)⟩

end Ouija
